import Mathlib

/-!
Verification of `setup-gtzan-dataset.py`

Shallow embedding of the dataset-organizer script. The script:
1. downloads a dataset snapshot into `GT-Music-Genre/` (network call, modelled
   as an `Except`-valued input),
2. creates `GT-Music-Genre/test` (`os.makedirs(..., exist_ok=True)`),
3. reads `GT-Music-Genre/test.csv` into a dataframe (modelled as an
   `Except`-valued parse yielding the ordered list of rows),
4. for each row in table order: computes `source_file = base_dir/row['path']`,
   `genre_dir = save_dir/row['classname']`, creates `genre_dir`, and moves
   `source_file` to `genre_dir/basename(source_file)` if it exists, otherwise
   prints a warning naming the missing source path,
5. prints a completion line.

Filesystem paths are modelled as lists of components (so `os.path.join` is
list append and `os.path.basename` is the last component).  The filesystem
state is a finite association list of regular files (path ↦ content) together
with a list of existing directories.  `os.makedirs(p, exist_ok=True)` inserts
every prefix of `p` into the directory list if absent; `shutil.move` removes
the source (and any file previously at the destination, since a move onto an
existing file overwrites it) and places the source's content at the
destination.  `os.path.exists` is true for a file or a directory.  Console
lines are modelled structurally by `OutLine` (a warning carries exactly the
path the printed f-string interpolates).
-/

/-- A filesystem path, as its list of components. -/
abbrev FPath := List String

/-- One row of the metadata table `test.csv`: the code reads `row['path']`
(a path relative to the base directory, modelled already split into
components) and `row['classname']`. -/
structure MetadataRow where
  path : FPath
  classname : String
deriving DecidableEq, Repr

/-- Filesystem state: regular files as an association list (path ↦ content,
contents abstracted as `Nat`), plus the list of existing directories. -/
structure FS where
  files : List (FPath × Nat)
  dirs : List FPath
deriving DecidableEq, Repr

/-- First-match association-list lookup over the file table. -/
def findFile (p : FPath) : List (FPath × Nat) → Option Nat
  | [] => none
  | e :: rest => if e.1 = p then some e.2 else findFile p rest

/-- All nonempty prefixes of a path, shortest first: the chain of directories
`os.makedirs` creates (each missing ancestor, then the path itself). -/
def chainOf (p : FPath) : List FPath :=
  (List.range p.length).map (fun i => p.take (i + 1))

/-- Insert a directory if absent (the effect of creating one directory with
`exist_ok=True`: no error and no duplicate when it already exists). -/
def insertDir (ds : List FPath) (q : FPath) : List FPath :=
  if q ∈ ds then ds else ds ++ [q]

/-- `os.makedirs(p, exist_ok=True)`: create `p` and any missing ancestors. -/
def FS.makedirs (fs : FS) (p : FPath) : FS :=
  { fs with dirs := (chainOf p).foldl insertDir fs.dirs }

/-- Is there a regular file at `p`? -/
def FS.isFile (fs : FS) (p : FPath) : Bool :=
  (findFile p fs.files).isSome

/-- `os.path.exists(p)`: true for a regular file or a directory. -/
def FS.pathExists (fs : FS) (p : FPath) : Bool :=
  fs.isFile p || fs.dirs.contains p

/-- `shutil.move(src, dst)` for a regular file: remove the entry at `src`
(and any file previously at `dst` — the move overwrites), and place the
source's content at `dst`. -/
def FS.move (fs : FS) (src dst : FPath) : FS :=
  match findFile src fs.files with
  | none => fs
  | some c =>
      { fs with
        files := (fs.files.filter (fun e => e.1 ≠ src ∧ e.1 ≠ dst)) ++ [(dst, c)] }

/-- `base_dir = "GT-Music-Genre"` (script constant). -/
def base_dir : FPath := ["GT-Music-Genre"]

/-- `save_dir = os.path.join(base_dir, "test")`. -/
def save_dir : FPath := base_dir ++ ["test"]

/-- `os.path.basename`: the last path component. -/
def basename (p : FPath) : String := p.getLast?.getD ""

/-- One console line: either the per-row warning (carrying the missing
source path interpolated into the printed f-string) or the final
completion line. -/
inductive OutLine where
  | warning (missing : FPath)
  | completion
deriving DecidableEq, Repr

/-- `source_file = os.path.join(base_dir, row['path'])`. -/
def srcPath (row : MetadataRow) : FPath := base_dir ++ row.path

/-- `genre_dir = os.path.join(save_dir, genre)`. -/
def genreDir (row : MetadataRow) : FPath := save_dir ++ [row.classname]

/-- `dest_file = os.path.join(genre_dir, filename)` with
`filename = os.path.basename(source_file)`. -/
def destPath (row : MetadataRow) : FPath :=
  genreDir row ++ [basename (srcPath row)]

/-- The loop body (lines 29–46 of the script): create the genre directory,
then move the source file to its destination if it exists, else emit the
warning.  Returns the new state and the console lines printed. -/
def processRow (fs : FS) (row : MetadataRow) : FS × List OutLine :=
  let source_file := srcPath row
  let fs1 := fs.makedirs (genreDir row)
  let dest_file := destPath row
  if fs1.pathExists source_file then
    (fs1.move source_file dest_file, [])
  else
    (fs1, [OutLine.warning source_file])

/-- The `for _, row in df.iterrows()` loop: fold the loop body over the rows
in table order, accumulating console output. -/
def runRows (fs : FS) (rows : List MetadataRow) : FS × List OutLine :=
  rows.foldl
    (fun acc row =>
      let r := processRow acc.1 row
      (r.1, acc.2 ++ r.2))
    (fs, [])

/-- The organizer (lines 22–48): create `save_dir`, run the loop, print the
completion line. -/
def organize (fs : FS) (rows : List MetadataRow) : FS × List OutLine :=
  let fs1 := fs.makedirs save_dir
  let res := runRows fs1 rows
  (res.1, res.2 ++ [OutLine.completion])

/-- Process outcome: `fatal` when an uncaught exception terminates the run
(carrying the error and the filesystem state at exit, `none` when the
snapshot download itself failed before any modelled local state existed),
`success` with the final state and console output otherwise. -/
inductive Outcome where
  | fatal (err : String) (fsAtExit : Option FS)
  | success (fs : FS) (output : List OutLine)
deriving DecidableEq, Repr

/-- The whole script: `snapshot_download` (modelled by its `Except` result:
the snapshot filesystem, or a raised error) then `os.makedirs(save_dir)`,
then `pd.read_csv` (modelled by an `Except`-valued parse of the current
state), then the row loop and the completion print.  An exception from
either fallible step propagates and terminates the process. -/
def script (snap : Except String FS)
    (parse : FS → Except String (List MetadataRow)) : Outcome :=
  match snap with
  | .error e => .fatal e none
  | .ok fs0 =>
      let fs1 := fs0.makedirs save_dir
      match parse fs1 with
      | .error e => .fatal e (some fs1)
      | .ok rows =>
          let res := runRows fs1 rows
          .success res.1 (res.2 ++ [OutLine.completion])

/-- The state component of the loop body, used to reason about the fold. -/
def stepFS (fs : FS) (row : MetadataRow) : FS := (processRow fs row).1

/-- The loop fold starting from an already-accumulated output. -/
def runRowsFrom (fs : FS) (out : List OutLine) (rows : List MetadataRow) :
    FS × List OutLine :=
  rows.foldl
    (fun acc row =>
      let r := processRow acc.1 row
      (r.1, acc.2 ++ r.2))
    (fs, out)

/-- The organizer's directory-creation logic in program order: the
`os.makedirs(save_dir, exist_ok=True)` call followed by the per-row
`os.makedirs(genre_dir, exist_ok=True)` calls. -/
def createDirs (fs : FS) (rows : List MetadataRow) : FS :=
  rows.foldl (fun acc row => acc.makedirs (genreDir row)) (fs.makedirs save_dir)

/-- Modelled from the spec: "Contract: for each MetadataRow, in table order"
— the row loop written as head-first structural recursion, processing one
row at a time and emitting its console lines before any later row's.  Used
to state that the code's fold processes the ordered row sequence strictly
in table order. -/
def specProcessRows (fs : FS) : List MetadataRow → FS × List OutLine
  | [] => (fs, [])
  | r :: rest =>
      let p := processRow fs r
      let q := specProcessRows p.1 rest
      (q.1, p.2 ++ q.2)

/-! ## Lookup lemmas -/

theorem findFile_append_of_some (p : FPath) (l1 l2 : List (FPath × Nat)) (v : Nat)
    (h : findFile p l1 = some v) : findFile p (l1 ++ l2) = some v := by
  induction l1 with
  | nil => simp [findFile] at h
  | cons e rest ih =>
    simp only [findFile] at h ⊢
    by_cases he : e.1 = p
    · simpa [he] using h
    · rw [if_neg he] at h ⊢
      exact ih h

theorem findFile_append_of_none (p : FPath) (l1 l2 : List (FPath × Nat))
    (h : findFile p l1 = none) : findFile p (l1 ++ l2) = findFile p l2 := by
  induction l1 with
  | nil => rfl
  | cons e rest ih =>
    simp only [findFile] at h ⊢
    by_cases he : e.1 = p
    · simp [he] at h
    · rw [if_neg he] at h ⊢
      exact ih h

theorem findFile_eq_none_of_forall (p : FPath) (l : List (FPath × Nat))
    (h : ∀ e ∈ l, e.1 ≠ p) : findFile p l = none := by
  induction l with
  | nil => rfl
  | cons e rest ih =>
    simp only [findFile]
    rw [if_neg (h e (List.mem_cons_self e rest))]
    exact ih (fun e' he' => h e' (List.mem_cons_of_mem e he'))

theorem findFile_filter_pair (p src dst : FPath) (l : List (FPath × Nat))
    (h1 : p ≠ src) (h2 : p ≠ dst) :
    findFile p (l.filter (fun e => e.1 ≠ src ∧ e.1 ≠ dst)) = findFile p l := by
  induction l with
  | nil => rfl
  | cons e rest ih =>
    rw [List.filter_cons]
    by_cases hp : e.1 ≠ src ∧ e.1 ≠ dst
    · rw [if_pos (by simpa using hp)]
      simp only [findFile]
      by_cases he : e.1 = p
      · rw [if_pos he, if_pos he]
      · rw [if_neg he, if_neg he]
        exact ih
    · rw [if_neg (by simpa using hp)]
      have he : e.1 ≠ p := by
        intro hep
        exact hp ⟨hep ▸ h1, hep ▸ h2⟩
      rw [ih]
      simp only [findFile, if_neg he]

theorem mem_filter_pair_ne (src dst : FPath) (l : List (FPath × Nat)) :
    ∀ e ∈ l.filter (fun e => e.1 ≠ src ∧ e.1 ≠ dst), e.1 ≠ src ∧ e.1 ≠ dst := by
  intro e he
  have := List.of_mem_filter he
  simpa using this

/-! ## Directory-creation lemmas -/

theorem insertDir_of_mem (ds : List FPath) (q : FPath) (h : q ∈ ds) :
    insertDir ds q = ds := by
  simp [insertDir, h]

theorem mem_insertDir_iff (ds : List FPath) (r q : FPath) :
    q ∈ insertDir ds r ↔ q ∈ ds ∨ q = r := by
  unfold insertDir
  by_cases hr : r ∈ ds
  · rw [if_pos hr]
    constructor
    · exact Or.inl
    · rintro (h | rfl)
      · exact h
      · exact hr
  · rw [if_neg hr]
    simp

theorem insertDir_nodup (ds : List FPath) (r : FPath) (h : ds.Nodup) :
    (insertDir ds r).Nodup := by
  unfold insertDir
  by_cases hr : r ∈ ds
  · simpa [if_pos hr] using h
  · rw [if_neg hr]
    simp [List.nodup_append, h, hr]

theorem mem_foldl_insertDir_iff (l : List FPath) (ds : List FPath) (q : FPath) :
    q ∈ l.foldl insertDir ds ↔ q ∈ ds ∨ q ∈ l := by
  induction l generalizing ds with
  | nil => simp
  | cons r rest ih =>
    rw [List.foldl_cons, ih, mem_insertDir_iff]
    simp only [List.mem_cons]
    tauto

theorem foldl_insertDir_eq_of_subset (l : List FPath) (ds : List FPath)
    (h : ∀ q ∈ l, q ∈ ds) : l.foldl insertDir ds = ds := by
  induction l with
  | nil => rfl
  | cons r rest ih =>
    rw [List.foldl_cons, insertDir_of_mem ds r (h r (List.mem_cons_self r rest))]
    exact ih (fun q hq => h q (List.mem_cons_of_mem r hq))

theorem foldl_insertDir_nodup (l : List FPath) (ds : List FPath) (h : ds.Nodup) :
    (l.foldl insertDir ds).Nodup := by
  induction l generalizing ds with
  | nil => exact h
  | cons r rest ih => exact ih (insertDir ds r) (insertDir_nodup ds r h)

theorem makedirs_files (fs : FS) (p : FPath) : (fs.makedirs p).files = fs.files := rfl

theorem mem_makedirs_dirs_iff (fs : FS) (p : FPath) (q : FPath) :
    q ∈ (fs.makedirs p).dirs ↔ q ∈ fs.dirs ∨ q ∈ chainOf p :=
  mem_foldl_insertDir_iff (chainOf p) fs.dirs q

theorem makedirs_eq_of_subset (fs : FS) (p : FPath)
    (h : ∀ q ∈ chainOf p, q ∈ fs.dirs) : fs.makedirs p = fs := by
  unfold FS.makedirs
  rw [foldl_insertDir_eq_of_subset (chainOf p) fs.dirs h]

theorem mem_chainOf_self (p : FPath) (h : p ≠ []) : p ∈ chainOf p := by
  unfold chainOf
  have hl : 0 < p.length := List.length_pos.mpr h
  refine List.mem_map.mpr ⟨p.length - 1, List.mem_range.mpr (by omega), ?_⟩
  rw [Nat.sub_add_cancel hl]
  exact List.take_length p

theorem makedirs_idem (fs : FS) (p : FPath) :
    (fs.makedirs p).makedirs p = fs.makedirs p := by
  apply makedirs_eq_of_subset
  intro q hq
  exact (mem_makedirs_dirs_iff fs p q).mpr (Or.inr hq)

theorem makedirs_nodup (fs : FS) (p : FPath) (h : fs.dirs.Nodup) :
    (fs.makedirs p).dirs.Nodup :=
  foldl_insertDir_nodup (chainOf p) fs.dirs h

/-! ## Move lemmas -/

theorem move_dirs (fs : FS) (src dst : FPath) : (fs.move src dst).dirs = fs.dirs := by
  unfold FS.move
  cases findFile src fs.files <;> rfl

theorem move_findFile_dst (fs : FS) (src dst : FPath) (c : Nat)
    (h : findFile src fs.files = some c) :
    findFile dst (fs.move src dst).files = some c := by
  unfold FS.move
  rw [h]
  simp only []
  rw [findFile_append_of_none dst _ _
    (findFile_eq_none_of_forall dst _
      (fun e he => (mem_filter_pair_ne src dst fs.files e he).2))]
  simp [findFile]

theorem move_findFile_src (fs : FS) (src dst : FPath) (c : Nat)
    (h : findFile src fs.files = some c) (hne : src ≠ dst) :
    findFile src (fs.move src dst).files = none := by
  unfold FS.move
  rw [h]
  simp only []
  rw [findFile_append_of_none src _ _
    (findFile_eq_none_of_forall src _
      (fun e he => (mem_filter_pair_ne src dst fs.files e he).1))]
  simp [findFile, Ne.symm hne]

theorem move_frame (fs : FS) (src dst q : FPath) (h1 : q ≠ src) (h2 : q ≠ dst) :
    findFile q (fs.move src dst).files = findFile q fs.files := by
  unfold FS.move
  cases hs : findFile src fs.files with
  | none => rfl
  | some c =>
    simp only []
    cases hq : findFile q (fs.files.filter (fun e => e.1 ≠ src ∧ e.1 ≠ dst)) with
    | none =>
      rw [findFile_append_of_none q _ _ hq,
        ← findFile_filter_pair q src dst fs.files h1 h2, hq]
      simp [findFile, Ne.symm h2]
    | some v =>
      rw [findFile_append_of_some q _ _ v hq,
        ← findFile_filter_pair q src dst fs.files h1 h2, hq]

/-! ## Loop-body lemmas -/

theorem processRow_of_exists (fs : FS) (row : MetadataRow)
    (hex : (fs.makedirs (genreDir row)).pathExists (srcPath row) = true) :
    processRow fs row =
      ((fs.makedirs (genreDir row)).move (srcPath row) (destPath row), []) := by
  unfold processRow
  simp [hex]

theorem processRow_warn (fs : FS) (row : MetadataRow)
    (hex : (fs.makedirs (genreDir row)).pathExists (srcPath row) = false) :
    processRow fs row = (fs.makedirs (genreDir row), [OutLine.warning (srcPath row)]) := by
  unfold processRow
  simp [hex]

theorem processRow_dirs (fs : FS) (row : MetadataRow) :
    (processRow fs row).1.dirs = (fs.makedirs (genreDir row)).dirs := by
  cases hex : (fs.makedirs (genreDir row)).pathExists (srcPath row)
  · rw [processRow_warn fs row hex]
  · rw [processRow_of_exists fs row hex]
    exact move_dirs _ _ _

theorem processRow_frame (fs : FS) (row : MetadataRow) (q : FPath)
    (h1 : q ≠ srcPath row) (h2 : q ≠ destPath row) :
    findFile q (processRow fs row).1.files = findFile q fs.files := by
  cases hex : (fs.makedirs (genreDir row)).pathExists (srcPath row)
  · rw [processRow_warn fs row hex]
    exact congrArg (findFile q) (makedirs_files fs (genreDir row))
  · rw [processRow_of_exists fs row hex]
    exact move_frame _ _ _ _ h1 h2

theorem processRow_move (fs : FS) (row : MetadataRow) (c : Nat)
    (hf : findFile (srcPath row) fs.files = some c)
    (hne : srcPath row ≠ destPath row) :
    findFile (destPath row) (processRow fs row).1.files = some c ∧
    findFile (srcPath row) (processRow fs row).1.files = none ∧
    (processRow fs row).2 = [] := by
  have hf1 : findFile (srcPath row) (fs.makedirs (genreDir row)).files = some c := hf
  have hex : (fs.makedirs (genreDir row)).pathExists (srcPath row) = true := by
    unfold FS.pathExists FS.isFile
    rw [hf1]
    rfl
  rw [processRow_of_exists fs row hex]
  exact ⟨move_findFile_dst _ _ _ c hf1, move_findFile_src _ _ _ c hf1 hne, rfl⟩

theorem processRow_dirs_mono (fs : FS) (row : MetadataRow) (q : FPath)
    (h : q ∈ fs.dirs) : q ∈ (processRow fs row).1.dirs := by
  rw [processRow_dirs]
  exact (mem_makedirs_dirs_iff fs (genreDir row) q).mpr (Or.inl h)

/-! ## Loop lemmas -/

theorem runRows_eq_runRowsFrom (fs : FS) (rows : List MetadataRow) :
    runRows fs rows = runRowsFrom fs [] rows := rfl

theorem runRowsFrom_eq (rows : List MetadataRow) (fs : FS) (out : List OutLine) :
    runRowsFrom fs out rows =
      (rows.foldl stepFS fs, out ++ (runRowsFrom fs [] rows).2) := by
  induction rows generalizing fs out with
  | nil => simp [runRowsFrom]
  | cons r rest ih =>
    have step : ∀ (fs' : FS) (out' : List OutLine),
        runRowsFrom fs' out' (r :: rest) =
          runRowsFrom (processRow fs' r).1 (out' ++ (processRow fs' r).2) rest := by
      intro fs' out'
      rfl
    rw [step fs out, ih, step fs [], List.nil_append, ih]
    simp [stepFS, List.append_assoc]
    rw [ih ((processRow fs r).1) ((processRow fs r).2)]

theorem runRows_fst (fs : FS) (rows : List MetadataRow) :
    (runRows fs rows).1 = rows.foldl stepFS fs := by
  rw [runRows_eq_runRowsFrom, runRowsFrom_eq]

theorem runRows_cons (fs : FS) (r : MetadataRow) (rest : List MetadataRow) :
    runRows fs (r :: rest) =
      ((runRows (stepFS fs r) rest).1,
        (processRow fs r).2 ++ (runRows (stepFS fs r) rest).2) := by
  have step : runRowsFrom fs [] (r :: rest) =
      runRowsFrom (stepFS fs r) ([] ++ (processRow fs r).2) rest := rfl
  rw [runRows_eq_runRowsFrom, step, List.nil_append, runRowsFrom_eq]
  rw [runRows_eq_runRowsFrom (stepFS fs r) rest, runRowsFrom_eq]

theorem runRows_nil (fs : FS) : runRows fs [] = (fs, []) := rfl

theorem runRows_append (fs : FS) (l1 l2 : List MetadataRow) :
    runRows fs (l1 ++ l2) =
      ((runRows (runRows fs l1).1 l2).1,
        (runRows fs l1).2 ++ (runRows (runRows fs l1).1 l2).2) := by
  induction l1 generalizing fs with
  | nil => simp [runRows_nil]
  | cons r rest ih =>
    rw [List.cons_append, runRows_cons, ih, runRows_cons]
    simp [List.append_assoc]

/-! ## Fold-level lemmas -/

theorem organize_fst (fs : FS) (rows : List MetadataRow) :
    (organize fs rows).1 = rows.foldl stepFS (fs.makedirs save_dir) :=
  runRows_fst (fs.makedirs save_dir) rows

theorem organize_snd (fs : FS) (rows : List MetadataRow) :
    (organize fs rows).2 =
      (runRows (fs.makedirs save_dir) rows).2 ++ [OutLine.completion] := rfl

theorem foldl_stepFS_frame (l : List MetadataRow) (fs : FS) (q : FPath)
    (hs : ∀ r ∈ l, q ≠ srcPath r) (hd : ∀ r ∈ l, q ≠ destPath r) :
    findFile q (l.foldl stepFS fs).files = findFile q fs.files := by
  induction l generalizing fs with
  | nil => rfl
  | cons r rest ih =>
    rw [List.foldl_cons]
    rw [ih (stepFS fs r)
      (fun r' h => hs r' (List.mem_cons_of_mem r h))
      (fun r' h => hd r' (List.mem_cons_of_mem r h))]
    exact processRow_frame fs r q
      (hs r (List.mem_cons_self r rest)) (hd r (List.mem_cons_self r rest))

theorem mem_foldl_stepFS_dirs_iff (l : List MetadataRow) (fs : FS) (q : FPath) :
    q ∈ (l.foldl stepFS fs).dirs ↔
      q ∈ fs.dirs ∨ ∃ r ∈ l, q ∈ chainOf (genreDir r) := by
  induction l generalizing fs with
  | nil => simp
  | cons r rest ih =>
    rw [List.foldl_cons, ih]
    have hstep : q ∈ (stepFS fs r).dirs ↔ q ∈ fs.dirs ∨ q ∈ chainOf (genreDir r) := by
      unfold stepFS
      rw [processRow_dirs]
      exact mem_makedirs_dirs_iff fs (genreDir r) q
    rw [hstep]
    simp only [List.mem_cons]
    constructor
    · rintro (⟨h | h⟩ | ⟨r', hr', hq⟩)
      · exact Or.inl h
      · exact Or.inr ⟨r, Or.inl rfl, h⟩
      · exact Or.inr ⟨r', Or.inr hr', hq⟩
    · rintro (h | ⟨r', hr' | hr', hq⟩)
      · exact Or.inl (Or.inl h)
      · exact Or.inl (Or.inr (hr' ▸ hq))
      · exact Or.inr ⟨r', hr', hq⟩

theorem foldl_stepFS_dirs_mono (l : List MetadataRow) (fs : FS) (q : FPath)
    (h : q ∈ fs.dirs) : q ∈ (l.foldl stepFS fs).dirs :=
  (mem_foldl_stepFS_dirs_iff l fs q).mpr (Or.inl h)

theorem genreDir_ne_nil (r : MetadataRow) : genreDir r ≠ [] := by
  simp [genreDir, save_dir, base_dir]

theorem save_dir_ne_nil : save_dir ≠ [] := by
  simp [save_dir, base_dir]

theorem organize_dirs_save (fs : FS) (rows : List MetadataRow) :
    ∀ q ∈ chainOf save_dir, q ∈ (organize fs rows).1.dirs := by
  intro q hq
  rw [organize_fst]
  exact foldl_stepFS_dirs_mono rows (fs.makedirs save_dir) q
    ((mem_makedirs_dirs_iff fs save_dir q).mpr (Or.inr hq))

theorem organize_dirs_genre (fs : FS) (rows : List MetadataRow) :
    ∀ r ∈ rows, ∀ q ∈ chainOf (genreDir r), q ∈ (organize fs rows).1.dirs := by
  intro r hr q hq
  rw [organize_fst]
  exact (mem_foldl_stepFS_dirs_iff rows (fs.makedirs save_dir) q).mpr
    (Or.inr ⟨r, hr, hq⟩)

theorem runRows_all_missing (l : List MetadataRow) (fs : FS)
    (hdirs : ∀ r ∈ l, ∀ q ∈ chainOf (genreDir r), q ∈ fs.dirs)
    (hmiss : ∀ r ∈ l, fs.pathExists (srcPath r) = false) :
    runRows fs l = (fs, l.map (fun r => OutLine.warning (srcPath r))) := by
  induction l with
  | nil => rfl
  | cons r rest ih =>
    have hmk : fs.makedirs (genreDir r) = fs :=
      makedirs_eq_of_subset fs (genreDir r) (hdirs r (List.mem_cons_self r rest))
    have hwarn : processRow fs r = (fs, [OutLine.warning (srcPath r)]) := by
      have hex : (fs.makedirs (genreDir r)).pathExists (srcPath r) = false := by
        rw [hmk]
        exact hmiss r (List.mem_cons_self r rest)
      rw [processRow_warn fs r hex, hmk]
    have hstep : stepFS fs r = fs := by
      unfold stepFS
      rw [hwarn]
    rw [runRows_cons, hstep,
      ih (fun r' h' => hdirs r' (List.mem_cons_of_mem r h'))
         (fun r' h' => hmiss r' (List.mem_cons_of_mem r h'))]
    rw [hwarn]
    rfl

/-! ## Directory-pass lemmas -/

theorem mem_foldl_makedirs_iff (rows : List MetadataRow) (fs : FS) (q : FPath) :
    q ∈ (rows.foldl (fun acc row => acc.makedirs (genreDir row)) fs).dirs ↔
      q ∈ fs.dirs ∨ ∃ r ∈ rows, q ∈ chainOf (genreDir r) := by
  induction rows generalizing fs with
  | nil => simp
  | cons r rest ih =>
    rw [List.foldl_cons, ih, mem_makedirs_dirs_iff]
    simp only [List.mem_cons]
    constructor
    · rintro (⟨h | h⟩ | ⟨r', hr', hq⟩)
      · exact Or.inl h
      · exact Or.inr ⟨r, Or.inl rfl, h⟩
      · exact Or.inr ⟨r', Or.inr hr', hq⟩
    · rintro (h | ⟨r', hr' | hr', hq⟩)
      · exact Or.inl (Or.inl h)
      · exact Or.inl (Or.inr (hr' ▸ hq))
      · exact Or.inr ⟨r', hr', hq⟩

theorem foldl_makedirs_eq_of_subset (rows : List MetadataRow) (fs : FS)
    (h : ∀ r ∈ rows, ∀ q ∈ chainOf (genreDir r), q ∈ fs.dirs) :
    rows.foldl (fun acc row => acc.makedirs (genreDir row)) fs = fs := by
  induction rows with
  | nil => rfl
  | cons r rest ih =>
    rw [List.foldl_cons,
      makedirs_eq_of_subset fs (genreDir r) (h r (List.mem_cons_self r rest))]
    exact ih (fun r' h' => h r' (List.mem_cons_of_mem r h'))

theorem foldl_makedirs_nodup (rows : List MetadataRow) (fs : FS)
    (h : fs.dirs.Nodup) :
    (rows.foldl (fun acc row => acc.makedirs (genreDir row)) fs).dirs.Nodup := by
  induction rows generalizing fs with
  | nil => exact h
  | cons r rest ih =>
    rw [List.foldl_cons]
    exact ih _ (makedirs_nodup fs (genreDir r) h)

theorem createDirs_idem (fs : FS) (rows : List MetadataRow) :
    createDirs (createDirs fs rows) rows = createDirs fs rows := by
  unfold createDirs
  have hmem : ∀ q, q ∈ ((fs.makedirs save_dir).dirs) →
      q ∈ (rows.foldl (fun acc row => acc.makedirs (genreDir row))
            (fs.makedirs save_dir)).dirs := by
    intro q hq
    exact (mem_foldl_makedirs_iff rows (fs.makedirs save_dir) q).mpr (Or.inl hq)
  set A := rows.foldl (fun acc row => acc.makedirs (genreDir row))
    (fs.makedirs save_dir) with hA
  have hsave : A.makedirs save_dir = A := by
    apply makedirs_eq_of_subset
    intro q hq
    exact hmem q ((mem_makedirs_dirs_iff fs save_dir q).mpr (Or.inr hq))
  rw [hsave]
  apply foldl_makedirs_eq_of_subset
  intro r hr q hq
  rw [hA]
  exact (mem_foldl_makedirs_iff rows (fs.makedirs save_dir) q).mpr
    (Or.inr ⟨r, hr, hq⟩)

theorem createDirs_nodup (fs : FS) (rows : List MetadataRow)
    (h : fs.dirs.Nodup) : (createDirs fs rows).dirs.Nodup :=
  foldl_makedirs_nodup rows (fs.makedirs save_dir) (makedirs_nodup fs save_dir h)

/-! ## Order lemmas -/

theorem runRows_eq_specProcessRows (rows : List MetadataRow) (fs : FS) :
    runRows fs rows = specProcessRows fs rows := by
  induction rows generalizing fs with
  | nil => rfl
  | cons r rest ih =>
    rw [runRows_cons, specProcessRows]
    rw [ih (stepFS fs r)]
    rfl

/-! ## Counting lemmas -/

theorem processRow_snd_cases (fs : FS) (row : MetadataRow) :
    (processRow fs row).2 = [] ∨
    (processRow fs row).2 = [OutLine.warning (srcPath row)] := by
  cases hex : (fs.makedirs (genreDir row)).pathExists (srcPath row)
  · right
    rw [processRow_warn fs row hex]
  · left
    rw [processRow_of_exists fs row hex]

theorem runRows_count_zero (l : List MetadataRow) (fs : FS) (p : FPath)
    (h : ∀ r ∈ l, srcPath r ≠ p) :
    ((runRows fs l).2).count (OutLine.warning p) = 0 := by
  induction l generalizing fs with
  | nil => rfl
  | cons r rest ih =>
    rw [runRows_cons]
    simp only []
    rw [List.count_append]
    have hhead : ((processRow fs r).2).count (OutLine.warning p) = 0 := by
      rcases processRow_snd_cases fs r with hc | hc
      · rw [hc]
        rfl
      · rw [hc]
        have hne : OutLine.warning p ≠ OutLine.warning (srcPath r) := by
          intro hcontra
          exact h r (List.mem_cons_self r rest) (by injection hcontra with h'; exact h'.symm)
        simp [List.count_singleton, hne]
    rw [hhead, ih (stepFS fs r) (fun r' h' => h r' (List.mem_cons_of_mem r h'))]

/-! ## Move-correctness helper -/

theorem organize_moves_general (fs0 : FS) (pre post : List MetadataRow)
    (r : MetadataRow) (c : Nat)
    (hsrc : findFile (srcPath r) fs0.files = some c)
    (hpre_s : ∀ r' ∈ pre, srcPath r' ≠ srcPath r)
    (hpre_d : ∀ r' ∈ pre, destPath r' ≠ srcPath r)
    (hrr : srcPath r ≠ destPath r)
    (hpost_sd : ∀ r' ∈ post, srcPath r' ≠ destPath r)
    (hpost_dd : ∀ r' ∈ post, destPath r' ≠ destPath r)
    (hpost_ss : ∀ r' ∈ post, srcPath r' ≠ srcPath r)
    (hpost_ds : ∀ r' ∈ post, destPath r' ≠ srcPath r) :
    findFile (destPath r) (organize fs0 (pre ++ r :: post)).1.files = some c ∧
    findFile (srcPath r) (organize fs0 (pre ++ r :: post)).1.files = none := by
  rw [organize_fst, List.foldl_append, List.foldl_cons]
  have hsrcA : findFile (srcPath r)
      (pre.foldl stepFS (fs0.makedirs save_dir)).files = some c := by
    rw [foldl_stepFS_frame pre (fs0.makedirs save_dir) (srcPath r)
      (fun r' h' => Ne.symm (hpre_s r' h'))
      (fun r' h' => Ne.symm (hpre_d r' h'))]
    exact hsrc
  obtain ⟨hdst, hsrcgone, -⟩ :=
    processRow_move (pre.foldl stepFS (fs0.makedirs save_dir)) r c hsrcA hrr
  constructor
  · rw [foldl_stepFS_frame post
      (stepFS (pre.foldl stepFS (fs0.makedirs save_dir)) r) (destPath r)
      (fun r' h' => Ne.symm (hpost_sd r' h'))
      (fun r' h' => Ne.symm (hpost_dd r' h'))]
    exact hdst
  · rw [foldl_stepFS_frame post
      (stepFS (pre.foldl stepFS (fs0.makedirs save_dir)) r) (srcPath r)
      (fun r' h' => Ne.symm (hpost_ss r' h'))
      (fun r' h' => Ne.symm (hpost_ds r' h'))]
    exact hsrcgone

/-! ## Claim theorems -/

/-- C10: given an empty metadata table (zero rows), the run creates the
directory `<base>/test`, moves no files, emits no warnings, and prints the
single completion line. -/
theorem organize_empty_table (fs : FS) :
    organize fs [] = (fs.makedirs save_dir, [OutLine.completion]) ∧
    save_dir ∈ (organize fs []).1.dirs ∧
    (organize fs []).1.files = fs.files := by
  refine ⟨rfl, ?_, rfl⟩
  exact (mem_makedirs_dirs_iff fs save_dir save_dir).mpr
    (Or.inr (mem_chainOf_self save_dir save_dir_ne_nil))

/-- C8: every row's label directory `test/<class_label>` is created before
the source-existence check, so after the run it exists for every row of the
table — in particular a row whose source file is missing still leaves its
(possibly empty) label directory behind. -/
theorem organize_creates_genre_dir (fs : FS) (rows : List MetadataRow)
    (r : MetadataRow) (hmem : r ∈ rows) :
    genreDir r ∈ (organize fs rows).1.dirs :=
  organize_dirs_genre fs rows r hmem (genreDir r)
    (mem_chainOf_self (genreDir r) (genreDir_ne_nil r))

/-- C8 witness: a single-row table whose source file is missing (the
filesystem is empty) still leaves `test/rock` behind. -/
theorem organize_creates_genre_dir_witness :
    (⟨["a", "x.wav"], "rock"⟩ : MetadataRow) ∈
      ([⟨["a", "x.wav"], "rock"⟩] : List MetadataRow) ∧
    genreDir ⟨["a", "x.wav"], "rock"⟩ ∈
      (organize ⟨[], []⟩ [⟨["a", "x.wav"], "rock"⟩]).1.dirs :=
  ⟨by decide,
   organize_creates_genre_dir ⟨[], []⟩ [⟨["a", "x.wav"], "rock"⟩]
     ⟨["a", "x.wav"], "rock"⟩ (by decide)⟩

/-- C6: the organizer processes the ordered row sequence strictly in table
order, one row at a time: the code's fold over the dataframe rows equals
head-first one-row-at-a-time recursion, each row's console output coming
before any later row's. -/
theorem organize_in_table_order : ∀ (fs : FS) (rows : List MetadataRow),
    runRows fs rows = specProcessRows fs rows :=
  fun fs rows => runRows_eq_specProcessRows rows fs

/-- C5: directory creation is idempotent — re-creating an existing directory
is the identity and raises no error, `Nodup` of the directory list is
preserved (no duplicates), and running the organizer's directory-creation
logic twice equals running it once. -/
theorem makedirs_idempotent :
    (∀ (fs : FS) (p : FPath), (fs.makedirs p).makedirs p = fs.makedirs p) ∧
    (∀ (fs : FS) (p : FPath), fs.dirs.Nodup → (fs.makedirs p).dirs.Nodup) ∧
    (∀ (fs : FS) (rows : List MetadataRow),
      createDirs (createDirs fs rows) rows = createDirs fs rows) ∧
    (∀ (fs : FS) (rows : List MetadataRow),
      fs.dirs.Nodup → (createDirs fs rows).dirs.Nodup) :=
  ⟨makedirs_idem, makedirs_nodup, createDirs_idem, createDirs_nodup⟩

/-- C5 witness: idempotence and duplicate-freedom at a concrete filesystem
and one-row table. -/
theorem makedirs_idempotent_witness :
    ((FS.mk [] []).makedirs save_dir).makedirs save_dir =
      (FS.mk [] []).makedirs save_dir ∧
    ((FS.mk [] []).makedirs save_dir).dirs.Nodup ∧
    createDirs (createDirs ⟨[], []⟩ [⟨["a", "x.wav"], "rock"⟩])
        [⟨["a", "x.wav"], "rock"⟩] =
      createDirs ⟨[], []⟩ [⟨["a", "x.wav"], "rock"⟩] ∧
    (createDirs ⟨[], []⟩ [⟨["a", "x.wav"], "rock"⟩]).dirs.Nodup :=
  ⟨makedirs_idempotent.1 ⟨[], []⟩ save_dir,
   makedirs_idempotent.2.1 ⟨[], []⟩ save_dir (by decide),
   makedirs_idempotent.2.2.1 ⟨[], []⟩ [⟨["a", "x.wav"], "rock"⟩],
   makedirs_idempotent.2.2.2 ⟨[], []⟩ [⟨["a", "x.wav"], "rock"⟩] (by decide)⟩

/-- C3: a snapshot-download failure or metadata-read failure is fatal and
surfaces the underlying error; when the metadata read fails no row is
processed and no file has been moved (the files are exactly the snapshot's);
when both steps succeed the run completes — these are the only fatal
errors. -/
theorem script_fatal_errors :
    (∀ (e : String) (parse : FS → Except String (List MetadataRow)),
      script (.error e) parse = .fatal e none) ∧
    (∀ (fs0 : FS) (parse : FS → Except String (List MetadataRow)) (e : String),
      parse (fs0.makedirs save_dir) = .error e →
        script (.ok fs0) parse = .fatal e (some (fs0.makedirs save_dir)) ∧
        (fs0.makedirs save_dir).files = fs0.files) ∧
    (∀ (fs0 : FS) (parse : FS → Except String (List MetadataRow))
        (rows : List MetadataRow),
      parse (fs0.makedirs save_dir) = .ok rows →
        script (.ok fs0) parse =
          .success (organize fs0 rows).1 (organize fs0 rows).2) := by
  have hexpand : ∀ (fs0 : FS) (parse : FS → Except String (List MetadataRow)),
      script (.ok fs0) parse =
        (match parse (fs0.makedirs save_dir) with
          | .error e => Outcome.fatal e (some (fs0.makedirs save_dir))
          | .ok rows =>
              Outcome.success (runRows (fs0.makedirs save_dir) rows).1
                ((runRows (fs0.makedirs save_dir) rows).2 ++ [OutLine.completion])) :=
    fun fs0 parse => rfl
  refine ⟨fun e parse => rfl, ?_, ?_⟩
  · intro fs0 parse e h
    refine ⟨?_, rfl⟩
    rw [hexpand, h]
  · intro fs0 parse rows h
    rw [hexpand, h]
    rfl

/-- C3 witness: the three behaviors at concrete inputs — a failed download,
a failed metadata read over an empty snapshot, and a successful empty run. -/
theorem script_fatal_errors_witness :
    script (.error "network failure") (fun _ => .ok []) =
      .fatal "network failure" none ∧
    (script (.ok ⟨[], []⟩) (fun _ => .error "bad csv") =
        .fatal "bad csv" (some ((⟨[], []⟩ : FS).makedirs save_dir)) ∧
      ((⟨[], []⟩ : FS).makedirs save_dir).files = (⟨[], []⟩ : FS).files) ∧
    script (.ok ⟨[], []⟩) (fun _ => .ok []) =
      .success (organize ⟨[], []⟩ []).1 (organize ⟨[], []⟩ []).2 :=
  ⟨script_fatal_errors.1 "network failure" (fun _ => .ok []),
   script_fatal_errors.2.1 ⟨[], []⟩ (fun _ => .error "bad csv") "bad csv" rfl,
   script_fatal_errors.2.2 ⟨[], []⟩ (fun _ => .ok []) [] rfl⟩

theorem runRows_snd_cons (fs : FS) (r : MetadataRow) (rest : List MetadataRow) :
    (runRows fs (r :: rest)).2 =
      (processRow fs r).2 ++ (runRows (stepFS fs r) rest).2 := by
  rw [runRows_cons]

theorem runRows_snd_append (fs : FS) (l1 l2 : List MetadataRow) :
    (runRows fs (l1 ++ l2)).2 =
      (runRows fs l1).2 ++ (runRows (runRows fs l1).1 l2).2 := by
  rw [runRows_append]

/-- C2: a row whose source file does not exist at move time (after its genre
directory is created) emits, at its processing step, exactly the one warning
line naming that exact source path; the run does not raise, continues with
the remaining rows, and still ends with the completion line — and when no
other row shares that source path, the whole output contains that warning
exactly once. -/
theorem organize_missing_source_warns (fs0 : FS) (pre post : List MetadataRow)
    (r : MetadataRow)
    (hmiss : ((pre.foldl stepFS (fs0.makedirs save_dir)).makedirs
        (genreDir r)).pathExists (srcPath r) = false)
    (huniq : ((pre ++ r :: post).map srcPath).count (srcPath r) = 1) :
    (processRow (pre.foldl stepFS (fs0.makedirs save_dir)) r).2 =
      [OutLine.warning (srcPath r)] ∧
    ((organize fs0 (pre ++ r :: post)).2).count (OutLine.warning (srcPath r)) = 1 ∧
    ((organize fs0 (pre ++ r :: post)).2).getLast? = some OutLine.completion := by
  refine ⟨by rw [processRow_warn _ r hmiss], ?_, ?_⟩
  have hcounts : (pre.map srcPath).count (srcPath r) = 0 ∧
      (post.map srcPath).count (srcPath r) = 0 := by
    rw [List.map_append, List.map_cons, List.count_append,
      List.count_cons_self] at huniq
    omega
  have hpre : ∀ r' ∈ pre, srcPath r' ≠ srcPath r := by
    intro r' h' heq
    exact (List.count_eq_zero.mp hcounts.1) (List.mem_map.mpr ⟨r', h', heq⟩)
  have hpost : ∀ r' ∈ post, srcPath r' ≠ srcPath r := by
    intro r' h' heq
    exact (List.count_eq_zero.mp hcounts.2) (List.mem_map.mpr ⟨r', h', heq⟩)
  · rw [organize_snd, runRows_snd_append, runRows_snd_cons, runRows_fst,
      processRow_warn _ r hmiss]
    simp only [List.count_append]
    rw [runRows_count_zero pre (fs0.makedirs save_dir) (srcPath r) hpre,
      runRows_count_zero post _ (srcPath r) hpost]
    simp
  · rw [organize_snd, List.getLast?_concat]

/-- C2 witness: a one-row table over an empty snapshot warns exactly once
about its missing source and still prints the completion line last. -/
theorem organize_missing_source_warns_witness :
    (processRow (([] : List MetadataRow).foldl stepFS
        ((⟨[], []⟩ : FS).makedirs save_dir)) ⟨["a", "x.wav"], "rock"⟩).2 =
      [OutLine.warning (srcPath ⟨["a", "x.wav"], "rock"⟩)] ∧
    ((organize ⟨[], []⟩ ([] ++ ⟨["a", "x.wav"], "rock"⟩ :: [])).2).count
      (OutLine.warning (srcPath ⟨["a", "x.wav"], "rock"⟩)) = 1 ∧
    ((organize ⟨[], []⟩ ([] ++ ⟨["a", "x.wav"], "rock"⟩ :: [])).2).getLast? =
      some OutLine.completion :=
  organize_missing_source_warns ⟨[], []⟩ [] [] ⟨["a", "x.wav"], "rock"⟩
    (by decide) (by decide)

/-- C9: frame property — the run leaves every file path unchanged (location
and content) that is not the source or destination path of some row, and
every directory unchanged that is not on the created `test` /
`test/<class_label>` chains. -/
theorem organize_frame (fs : FS) (rows : List MetadataRow) (q : FPath)
    (hqs : ∀ r ∈ rows, q ≠ srcPath r) (hqd : ∀ r ∈ rows, q ≠ destPath r) :
    findFile q (organize fs rows).1.files = findFile q fs.files ∧
    (∀ d : FPath, d ∉ chainOf save_dir →
      (∀ r ∈ rows, d ∉ chainOf (genreDir r)) →
      (d ∈ (organize fs rows).1.dirs ↔ d ∈ fs.dirs)) := by
  constructor
  · rw [organize_fst,
      foldl_stepFS_frame rows (fs.makedirs save_dir) q hqs hqd]
    rfl
  · intro d hd1 hd2
    rw [organize_fst, mem_foldl_stepFS_dirs_iff, mem_makedirs_dirs_iff]
    constructor
    · rintro ((h | h) | ⟨r', hr', hq'⟩)
      · exact h
      · exact absurd h hd1
      · exact absurd hq' (hd2 r' hr')
    · intro h
      exact Or.inl (Or.inl h)

/-- C9 witness: a snapshot file not listed in the table and an unrelated
directory survive a run that moves one listed file. -/
theorem organize_frame_witness :
    findFile ["GT-Music-Genre", "other.txt"]
      (organize ⟨[(["GT-Music-Genre", "other.txt"], 5),
                  (["GT-Music-Genre", "a", "x.wav"], 0)], [["keep"]]⟩
        [⟨["a", "x.wav"], "rock"⟩]).1.files =
      findFile ["GT-Music-Genre", "other.txt"]
        [(["GT-Music-Genre", "other.txt"], 5),
         (["GT-Music-Genre", "a", "x.wav"], 0)] ∧
    (["keep"] ∈
        (organize ⟨[(["GT-Music-Genre", "other.txt"], 5),
                    (["GT-Music-Genre", "a", "x.wav"], 0)], [["keep"]]⟩
          [⟨["a", "x.wav"], "rock"⟩]).1.dirs ↔
      ["keep"] ∈ [(["keep"] : FPath)]) :=
  ⟨(organize_frame ⟨[(["GT-Music-Genre", "other.txt"], 5),
      (["GT-Music-Genre", "a", "x.wav"], 0)], [["keep"]]⟩
      [⟨["a", "x.wav"], "rock"⟩] ["GT-Music-Genre", "other.txt"]
      (by decide) (by decide)).1,
   (organize_frame ⟨[(["GT-Music-Genre", "other.txt"], 5),
      (["GT-Music-Genre", "a", "x.wav"], 0)], [["keep"]]⟩
      [⟨["a", "x.wav"], "rock"⟩] ["GT-Music-Genre", "other.txt"]
      (by decide) (by decide)).2 ["keep"] (by decide) (by decide)⟩

/-- C4: two different rows with distinct existing source files mapping to the
same destination path: the second move overwrites the first without raising
— afterwards the destination holds exactly the second row's file. -/
theorem organize_collision_overwrites (fs0 : FS) (r1 r2 : MetadataRow)
    (c1 c2 : Nat)
    (h1 : findFile (srcPath r1) fs0.files = some c1)
    (h2 : findFile (srcPath r2) fs0.files = some c2)
    (hss : srcPath r1 ≠ srcPath r2)
    (hdd : destPath r1 = destPath r2)
    (h11 : srcPath r1 ≠ destPath r1)
    (h22 : srcPath r2 ≠ destPath r2) :
    findFile (destPath r2) (organize fs0 [r1, r2]).1.files = some c2 := by
  rw [organize_fst,
    show ([r1, r2] : List MetadataRow).foldl stepFS (fs0.makedirs save_dir) =
      stepFS (stepFS (fs0.makedirs save_dir) r1) r2 from rfl]
  have h1' : findFile (srcPath r1) (fs0.makedirs save_dir).files = some c1 := h1
  have h2' : findFile (srcPath r2) (stepFS (fs0.makedirs save_dir) r1).files =
      some c2 := by
    have hne1 : srcPath r2 ≠ srcPath r1 := Ne.symm hss
    have hne2 : srcPath r2 ≠ destPath r1 := by
      rw [hdd]
      exact h22
    have := processRow_frame (fs0.makedirs save_dir) r1 (srcPath r2) hne1 hne2
    rw [show stepFS (fs0.makedirs save_dir) r1 =
      (processRow (fs0.makedirs save_dir) r1).1 from rfl, this]
    exact h2
  obtain ⟨hd2, -, -⟩ :=
    processRow_move (stepFS (fs0.makedirs save_dir) r1) r2 c2 h2' h22
  exact hd2

/-- C4 witness: `a/x.wav ↦ rock` then `b/x.wav ↦ rock` collide at
`test/rock/x.wav`; afterwards that destination holds the second file. -/
theorem organize_collision_overwrites_witness :
    findFile (destPath ⟨["b", "x.wav"], "rock"⟩)
      (organize ⟨[(["GT-Music-Genre", "a", "x.wav"], 0),
                  (["GT-Music-Genre", "b", "x.wav"], 1)], []⟩
        [⟨["a", "x.wav"], "rock"⟩, ⟨["b", "x.wav"], "rock"⟩]).1.files =
      some 1 :=
  organize_collision_overwrites
    ⟨[(["GT-Music-Genre", "a", "x.wav"], 0),
      (["GT-Music-Genre", "b", "x.wav"], 1)], []⟩
    ⟨["a", "x.wav"], "rock"⟩ ⟨["b", "x.wav"], "rock"⟩ 0 1
    (by decide) (by decide) (by decide) (by decide) (by decide) (by decide)

/-- C1 counterexample: with two rows sharing the same source path
(`a/x.wav` labelled `rock` then `jazz`), the second row's source file exists
before the run, yet after the run there is no file at the second row's
destination `test/jazz/x.wav` — the first row already moved the source, so
the second warns instead of moving.  The claim's universal statement is
false as stated. -/
theorem organize_moves_each_row_counterexample :
    FS.isFile ⟨[(["GT-Music-Genre", "a", "x.wav"], 0)], []⟩
      (srcPath ⟨["a", "x.wav"], "jazz"⟩) = true ∧
    (organize ⟨[(["GT-Music-Genre", "a", "x.wav"], 0)], []⟩
        [⟨["a", "x.wav"], "rock"⟩, ⟨["a", "x.wav"], "jazz"⟩]).1.isFile
      (destPath ⟨["a", "x.wav"], "jazz"⟩) = false := by
  decide

/-- C1 (amended): provided the rows' source paths are pairwise distinct,
their destination paths are pairwise distinct, and no row's source path
equals any row's destination path, every row whose source file exists before
the run has, after the run, a file at `test/<class_label>/<basename>` and no
file at its original path. -/
theorem organize_moves_each_row (fs0 : FS) (rows : List MetadataRow)
    (r : MetadataRow) (hmem : r ∈ rows)
    (hsrc : fs0.isFile (srcPath r) = true)
    (hS : (rows.map srcPath).Nodup)
    (hD : (rows.map destPath).Nodup)
    (hSD : ∀ r1 ∈ rows, ∀ r2 ∈ rows, srcPath r1 ≠ destPath r2) :
    (organize fs0 rows).1.isFile (destPath r) = true ∧
    (organize fs0 rows).1.isFile (srcPath r) = false := by
  obtain ⟨pre, post, rfl⟩ := List.append_of_mem hmem
  have hrmem : r ∈ pre ++ r :: post :=
    List.mem_append.mpr (Or.inr (List.mem_cons_self r post))
  have hpremem : ∀ r' ∈ pre, r' ∈ pre ++ r :: post :=
    fun r' h' => List.mem_append.mpr (Or.inl h')
  have hpostmem : ∀ r' ∈ post, r' ∈ pre ++ r :: post :=
    fun r' h' => List.mem_append.mpr (Or.inr (List.mem_cons_of_mem r h'))
  rw [List.map_append, List.map_cons] at hS hD
  have hSr := (List.nodup_cons.mp (List.nodup_middle.mp hS)).1
  have hDr := (List.nodup_cons.mp (List.nodup_middle.mp hD)).1
  have hS_pre : ∀ r' ∈ pre, srcPath r' ≠ srcPath r := by
    intro r' h' heq
    exact hSr (List.mem_append.mpr (Or.inl (List.mem_map.mpr ⟨r', h', heq⟩)))
  have hS_post : ∀ r' ∈ post, srcPath r' ≠ srcPath r := by
    intro r' h' heq
    exact hSr (List.mem_append.mpr (Or.inr (List.mem_map.mpr ⟨r', h', heq⟩)))
  have hD_post : ∀ r' ∈ post, destPath r' ≠ destPath r := by
    intro r' h' heq
    exact hDr (List.mem_append.mpr (Or.inr (List.mem_map.mpr ⟨r', h', heq⟩)))
  have hsrc' : (findFile (srcPath r) fs0.files).isSome = true := hsrc
  obtain ⟨c, hc⟩ := Option.isSome_iff_exists.mp hsrc'
  have main := organize_moves_general fs0 pre post r c hc
    hS_pre
    (fun r' h' => Ne.symm (hSD r hrmem r' (hpremem r' h')))
    (hSD r hrmem r hrmem)
    (fun r' h' => hSD r' (hpostmem r' h') r hrmem)
    hD_post
    hS_post
    (fun r' h' => Ne.symm (hSD r hrmem r' (hpostmem r' h')))
  constructor
  · show (findFile (destPath r) (organize fs0 (pre ++ r :: post)).1.files).isSome = true
    rw [main.1]
    rfl
  · show (findFile (srcPath r) (organize fs0 (pre ++ r :: post)).1.files).isSome = false
    rw [main.2]
    rfl

/-- C1 witness: the spec's two-row example — `a/x.wav ↦ rock`,
`b/y.wav ↦ jazz`, both sources present: afterwards `test/rock/x.wav` and
`test/jazz/y.wav` exist and `a/x.wav`, `b/y.wav` do not. -/
theorem organize_moves_each_row_witness :
    ((organize ⟨[(["GT-Music-Genre", "a", "x.wav"], 0),
                 (["GT-Music-Genre", "b", "y.wav"], 1)], []⟩
        [⟨["a", "x.wav"], "rock"⟩, ⟨["b", "y.wav"], "jazz"⟩]).1.isFile
      (destPath ⟨["a", "x.wav"], "rock"⟩) = true ∧
    (organize ⟨[(["GT-Music-Genre", "a", "x.wav"], 0),
                (["GT-Music-Genre", "b", "y.wav"], 1)], []⟩
        [⟨["a", "x.wav"], "rock"⟩, ⟨["b", "y.wav"], "jazz"⟩]).1.isFile
      (srcPath ⟨["a", "x.wav"], "rock"⟩) = false) ∧
    ((organize ⟨[(["GT-Music-Genre", "a", "x.wav"], 0),
                 (["GT-Music-Genre", "b", "y.wav"], 1)], []⟩
        [⟨["a", "x.wav"], "rock"⟩, ⟨["b", "y.wav"], "jazz"⟩]).1.isFile
      (destPath ⟨["b", "y.wav"], "jazz"⟩) = true ∧
    (organize ⟨[(["GT-Music-Genre", "a", "x.wav"], 0),
                (["GT-Music-Genre", "b", "y.wav"], 1)], []⟩
        [⟨["a", "x.wav"], "rock"⟩, ⟨["b", "y.wav"], "jazz"⟩]).1.isFile
      (srcPath ⟨["b", "y.wav"], "jazz"⟩) = false) :=
  ⟨organize_moves_each_row
      ⟨[(["GT-Music-Genre", "a", "x.wav"], 0),
        (["GT-Music-Genre", "b", "y.wav"], 1)], []⟩
      [⟨["a", "x.wav"], "rock"⟩, ⟨["b", "y.wav"], "jazz"⟩]
      ⟨["a", "x.wav"], "rock"⟩
      (by decide) (by decide) (by decide) (by decide) (by decide),
   organize_moves_each_row
      ⟨[(["GT-Music-Genre", "a", "x.wav"], 0),
        (["GT-Music-Genre", "b", "y.wav"], 1)], []⟩
      [⟨["a", "x.wav"], "rock"⟩, ⟨["b", "y.wav"], "jazz"⟩]
      ⟨["b", "y.wav"], "jazz"⟩
      (by decide) (by decide) (by decide) (by decide) (by decide)⟩

/-- C7: re-running the organizer after a fully completed first run (every
row's source gone from its original location) is non-idempotent in output
but filesystem-safe: every row triggers a "file not found" warning, no file
is moved or deleted, and the final filesystem layout is unchanged. -/
theorem organize_rerun (fs0 : FS) (rows : List MetadataRow)
    (hmiss : ∀ r ∈ rows,
      ((organize fs0 rows).1).pathExists (srcPath r) = false) :
    organize (organize fs0 rows).1 rows =
      ((organize fs0 rows).1,
        rows.map (fun r => OutLine.warning (srcPath r)) ++
          [OutLine.completion]) := by
  have hsave : ∀ q ∈ chainOf save_dir, q ∈ (organize fs0 rows).1.dirs :=
    organize_dirs_save fs0 rows
  have hgenre : ∀ r ∈ rows, ∀ q ∈ chainOf (genreDir r),
      q ∈ (organize fs0 rows).1.dirs :=
    organize_dirs_genre fs0 rows
  have hmk : (organize fs0 rows).1.makedirs save_dir = (organize fs0 rows).1 :=
    makedirs_eq_of_subset _ save_dir hsave
  have hrun : runRows ((organize fs0 rows).1.makedirs save_dir) rows =
      ((organize fs0 rows).1,
        rows.map (fun r => OutLine.warning (srcPath r))) := by
    rw [hmk]
    exact runRows_all_missing rows (organize fs0 rows).1 hgenre hmiss
  show ((runRows ((organize fs0 rows).1.makedirs save_dir) rows).1,
      (runRows ((organize fs0 rows).1.makedirs save_dir) rows).2 ++
        [OutLine.completion]) = _
  rw [hrun]

/-- C7 witness: after a completed one-row run, the second run warns about the
moved source, moves nothing, and leaves the layout unchanged. -/
theorem organize_rerun_witness :
    (∀ r ∈ ([⟨["a", "x.wav"], "rock"⟩] : List MetadataRow),
      ((organize ⟨[(["GT-Music-Genre", "a", "x.wav"], 0)], []⟩
          [⟨["a", "x.wav"], "rock"⟩]).1).pathExists (srcPath r) = false) ∧
    organize (organize ⟨[(["GT-Music-Genre", "a", "x.wav"], 0)], []⟩
        [⟨["a", "x.wav"], "rock"⟩]).1 [⟨["a", "x.wav"], "rock"⟩] =
      ((organize ⟨[(["GT-Music-Genre", "a", "x.wav"], 0)], []⟩
          [⟨["a", "x.wav"], "rock"⟩]).1,
        ([⟨["a", "x.wav"], "rock"⟩] : List MetadataRow).map
            (fun r => OutLine.warning (srcPath r)) ++
          [OutLine.completion]) :=
  ⟨by decide,
   organize_rerun ⟨[(["GT-Music-Genre", "a", "x.wav"], 0)], []⟩
     [⟨["a", "x.wav"], "rock"⟩] (by decide)⟩
